import Mathlib

/-!
Shallow embedding of the cast data model and event-pipeline engine of
`asciinema-scripted` (files `cast.py` and `script.py`), together with
theorems settling the specification claims about it.

Python values flowing through the parser are dynamically typed; we embed
them as the inductive `PVal`.  Python floats are modelled by their exact
rational values (`ℚ`): `json.dumps`/`json.loads` round-trip every finite
float exactly (the repr shortest-round-trip guarantee), so serialization
to a line and decoding it back is modelled as the identity on records,
with the `TypeError` that `json.dumps` raises on non-JSON values made
explicit.  IEEE special values (inf/nan) have no rational counterpart and
are outside the model.
-/

namespace Asciinema

/-- The `Theme` dataclass of `cast.py` (`fg`, `bg`, `palette`). -/
structure Theme where
  fg : String
  bg : String
  palette : List String
deriving DecidableEq, Repr

/-- A dynamically typed Python value as it appears in this program:
JSON-decodable data (`none` is Python `None`/JSON `null`), plus `Theme`
dataclass instances, which can sit in a header's `theme` field.
Dict keys are strings, as everywhere in this program. -/
inductive PVal where
  | none
  | bool (b : Bool)
  | int (n : Int)
  | float (q : ℚ)
  | str (s : String)
  | list (xs : List PVal)
  | dict (kvs : List (String × PVal))
  | theme (t : Theme)

/-- `value is not None`. -/
def PVal.isNone : PVal → Bool
  | PVal.none => true
  | _ => false

mutual

/-- `json.dumps` succeeds on this value (no dataclass instances inside).
The dict key `Nodup` conjunct records that a Python `dict` cannot hold a
duplicate key, which our association-list representation could. -/
def PVal.jsonSafe : PVal → Bool
  | PVal.none => true
  | PVal.bool _ => true
  | PVal.int _ => true
  | PVal.float _ => true
  | PVal.str _ => true
  | PVal.list xs => jsonSafeList xs
  | PVal.dict kvs => decide (kvs.map Prod.fst).Nodup && jsonSafeKVs kvs
  | PVal.theme _ => false

def jsonSafeList : List PVal → Bool
  | [] => true
  | v :: vs => v.jsonSafe && jsonSafeList vs

def jsonSafeKVs : List (String × PVal) → Bool
  | [] => true
  | kv :: rest => kv.2.jsonSafe && jsonSafeKVs rest

end

mutual

/-- The value conversion performed by `dataclasses.asdict`: dataclass
instances (here: `Theme`) are recursively converted into plain dicts;
lists and dicts are copied; atoms are kept. -/
def pvalAsdict : PVal → PVal
  | PVal.none => PVal.none
  | PVal.bool b => PVal.bool b
  | PVal.int n => PVal.int n
  | PVal.float q => PVal.float q
  | PVal.str s => PVal.str s
  | PVal.list xs => PVal.list (pvalAsdictList xs)
  | PVal.dict kvs => PVal.dict (pvalAsdictKVs kvs)
  | PVal.theme t =>
      PVal.dict [("fg", PVal.str t.fg), ("bg", PVal.str t.bg),
        ("palette", PVal.list (t.palette.map PVal.str))]

def pvalAsdictList : List PVal → List PVal
  | [] => []
  | v :: vs => pvalAsdict v :: pvalAsdictList vs

def pvalAsdictKVs : List (String × PVal) → List (String × PVal)
  | [] => []
  | kv :: rest => (kv.1, pvalAsdict kv.2) :: pvalAsdictKVs rest

end

/-- The `Header` dataclass: `version`, `width`, `height` are required
constructor arguments, the rest default to `None`.  Python does not check
the annotated types at construction time, so every field holds a `PVal`. -/
structure Header where
  version : PVal
  width : PVal
  height : PVal
  timestamp : PVal := PVal.none
  duration : PVal := PVal.none
  idle_time_limit : PVal := PVal.none
  command : PVal := PVal.none
  title : PVal := PVal.none
  env : PVal := PVal.none
  theme : PVal := PVal.none

/-- The `(name, value)` pairs of `dataclasses.asdict(header)`, in field
declaration order. -/
def headerPairs (h : Header) : List (String × PVal) :=
  [("version", pvalAsdict h.version),
   ("width", pvalAsdict h.width),
   ("height", pvalAsdict h.height),
   ("timestamp", pvalAsdict h.timestamp),
   ("duration", pvalAsdict h.duration),
   ("idle_time_limit", pvalAsdict h.idle_time_limit),
   ("command", pvalAsdict h.command),
   ("title", pvalAsdict h.title),
   ("env", pvalAsdict h.env),
   ("theme", pvalAsdict h.theme)]

/-- `Header.as_data`: the dict of the fields whose value is not `None`
(absent optional fields are omitted, not emitted as null). -/
def Header.as_data (h : Header) : PVal :=
  PVal.dict ((headerPairs h).filter (fun kv => !kv.2.isNone))

/-- The event variants of `cast.py` as a closed sum.  `OutputEvent`,
`InputEvent` and `MarkerEvent` payloads can be arbitrary decoded values
(the parser stores line element 2 unchecked); `CommentEvent` and
`ResizeEvent` are only ever built internally with their annotated types. -/
inductive Event where
  | output (time : ℚ) (data : PVal)
  | input (time : ℚ) (data : PVal)
  | marker (time : ℚ) (label : PVal)
  | comment (time : ℚ) (top : Bool) (comment : String)
  | resize (time : ℚ) (columns : Int) (rows : Int)

/-- The `time` field shared by all event variants. -/
def Event.time : Event → ℚ
  | Event.output t _ => t
  | Event.input t _ => t
  | Event.marker t _ => t
  | Event.comment t _ _ => t
  | Event.resize t _ _ => t

def Event.isComment : Event → Bool
  | Event.comment _ _ _ => true
  | _ => false

/-- The errors the core can raise.  Each constructor corresponds to one
`raise` site (or to an uncaught `TypeError`/`IndexError` that a raise-free
path can produce).  `invalidEventTime` carries no line number: the source
message `'Invalid event time {time_str} on line {ix + 1}'` is missing its
f-prefix, so the braces are literal text and nothing is interpolated. -/
inductive CastError where
  | indexError
  | missingHeader
  | invalidHeader
  | unsupportedVersion (version : PVal)
  | invalidEvent (line : Nat)
  | invalidEventTime
  | invalidResizeData (data : PVal) (line : Nat)
  | invalidEventCode (code : PVal) (line : Nat)
  | typeError
  | unsortedInput
  | serializingComment

/-- Decimal digits of `n`, most significant first, prepended to `acc`;
this is how `str` renders a non-negative integer. -/
def natDigits (n : Nat) (acc : List Char) : List Char :=
  let d := Char.ofNat (48 + n % 10)
  if _h : n < 10 then d :: acc
  else natDigits (n / 10) (d :: acc)
termination_by n
decreasing_by exact Nat.div_lt_self (by omega) (by omega)

/-- Python `str(int)`. -/
def pyIntStr (n : Int) : String :=
  if n < 0 then "-" ++ String.mk (natDigits (-n).toNat [])
  else String.mk (natDigits n.toNat [])

/-- The digit-accumulating step of `int(...)` on a digit string. -/
def digitStep (a : Nat) (c : Char) : Nat := 10 * a + (c.toNat - 48)

/-- `int(...)` applied to a known-all-digits string. -/
def digitsToNat (l : List Char) : Nat := l.foldl digitStep 0

/-- The regex `^([0-9]+)x([0-9]+)$` from `parse_cast`: the two captured
integers when the payload matches, `none` otherwise.  The digit class
cannot consume `x`, so the greedy match is the digit prefix. -/
def resizeMatch (s : List Char) : Option (Nat × Nat) :=
  let a := s.takeWhile Char.isDigit
  let rest := s.dropWhile Char.isDigit
  match a, rest with
  | [], _ => Option.none
  | _ :: _, x :: b =>
      if x = 'x' ∧ b ≠ [] ∧ b.all Char.isDigit then
        Option.some (digitsToNat a, digitsToNat b)
      else Option.none
  | _ :: _, [] => Option.none

/-- Failures of Python `float(value)`: `ValueError` for an unparsable
string, `TypeError` for a value that is neither a string nor a number. -/
inductive PyNumErr where
  | valueError
  | typeError

def isAsciiWs (c : Char) : Bool :=
  c = ' ' || c = '\t' || c = '\n' || c = '\r' || c = '\x0b' || c = '\x0c'

/-- Strip leading and trailing ASCII whitespace, as `float(str)` does. -/
def stripAsciiWs (l : List Char) : List Char :=
  ((l.dropWhile isAsciiWs).reverse.dropWhile isAsciiWs).reverse

/-- A spelling of an IEEE special value that `float(str)` also accepts
(`inf`, `infinity`, `nan`, case-insensitive, optionally signed): these
have no rational value, so theorems about the failure branch of
`float(str)` exclude them by hypothesis. -/
def floatSpecialSpelling (input : List Char) : Bool :=
  let l := stripAsciiWs input
  let l1 :=
    match l with
    | '+' :: r => r
    | '-' :: r => r
    | _ => l
  let low := l1.map Char.toLower
  low = "inf".toList || low = "infinity".toList || low = "nan".toList

/-- The domain on which the rational model of `float(str)` is exact:
printable ASCII without underscore digit separators and without IEEE
special spellings.  Outside it (non-ASCII digits, `1_0`, `inf`, control
whitespace) CPython `float` can succeed where the model has no value. -/
def pyFloatStrInScope (s : String) : Bool :=
  s.toList.all (fun c => decide (32 ≤ c.toNat) && decide (c.toNat < 128) && (c != '_')) &&
    !floatSpecialSpelling s.toList

/-- Value of a digit list read most-significant-first. -/
def decDigitsVal (l : List Char) : Nat := l.foldl digitStep 0

/-- Python `float(str)` on finite ASCII decimal literals: optional
whitespace, optional sign, `digits[.digits]` or `.digits`, optional
exponent.  IEEE special spellings (`inf`, `nan`, ...), underscore digit
separators, and non-ASCII digits are outside the rational-valued model;
theorems that rely on the `none` branch exclude them by hypothesis. -/
def pyFloatOfChars (input : List Char) : Option ℚ :=
  let l := stripAsciiWs input
  let (sign, l1) : ℚ × List Char :=
    match l with
    | '+' :: r => (1, r)
    | '-' :: r => (-1, r)
    | _ => (1, l)
  let ip := l1.takeWhile Char.isDigit
  let r1 := l1.dropWhile Char.isDigit
  let (fp, r2) : List Char × List Char :=
    match r1 with
    | '.' :: r => (r.takeWhile Char.isDigit, r.dropWhile Char.isDigit)
    | _ => ([], r1)
  if ip = [] ∧ fp = [] then Option.none
  else
    let mant : ℚ := (decDigitsVal ip : ℚ) + (decDigitsVal fp : ℚ) / ((10 : ℚ) ^ fp.length)
    match r2 with
    | [] => Option.some (sign * mant)
    | e :: r3 =>
        if e = 'e' ∨ e = 'E' then
          let (esign, r4) : Bool × List Char :=
            match r3 with
            | '+' :: r => (false, r)
            | '-' :: r => (true, r)
            | _ => (false, r3)
          if r4 ≠ [] ∧ r4.all Char.isDigit then
            let ev : ℚ := (10 : ℚ) ^ (decDigitsVal r4)
            Option.some (sign * mant * (if esign then ev⁻¹ else ev))
          else Option.none
        else Option.none

/-- Python `float(value)` on a decoded value: numbers and bools convert,
strings are parsed, everything else raises `TypeError` (which
`parse_cast` does not catch). -/
def pyFloat : PVal → Except PyNumErr ℚ
  | PVal.int n => Except.ok (n : ℚ)
  | PVal.float q => Except.ok q
  | PVal.bool b => Except.ok (if b then 1 else 0)
  | PVal.str s =>
      match pyFloatOfChars s.toList with
      | Option.some q => Except.ok q
      | Option.none => Except.error PyNumErr.valueError
  | _ => Except.error PyNumErr.typeError

/-- Python `value == (2 : int)` for the version gate: numeric values
compare by value across `int`/`float`/`bool`; values of other types are
never equal to an int. -/
def pyEqInt : PVal → Int → Bool
  | PVal.int n, m => n == m
  | PVal.float q, m => q == (m : ℚ)
  | PVal.bool b, m => (if b then (1 : Int) else 0) == m
  | _, _ => false

/-- One event line of `parse_cast` (`lineNo` is `ix + 1`, 1-based with the
header as line 0): a 3-element list, `float(...)`-convertible element 0,
kind tag in `{o,i,r,m}`, and for `r` a payload matching the resize regex
(`re.match` on a non-string raises `TypeError`). -/
def parse_event (lineNo : Nat) (line : PVal) : Except CastError Event :=
  match line with
  | PVal.list [timeStr, eventCode, d] =>
      match pyFloat timeStr with
      | Except.error PyNumErr.valueError => Except.error CastError.invalidEventTime
      | Except.error PyNumErr.typeError => Except.error CastError.typeError
      | Except.ok time =>
          match eventCode with
          | PVal.str c =>
              if c = "o" then Except.ok (Event.output time d)
              else if c = "i" then Except.ok (Event.input time d)
              else if c = "r" then
                match d with
                | PVal.str s =>
                    match resizeMatch s.toList with
                    | Option.some (cols, rows) =>
                        Except.ok (Event.resize time (Int.ofNat cols) (Int.ofNat rows))
                    | Option.none => Except.error (CastError.invalidResizeData d lineNo)
                | _ => Except.error CastError.typeError
              else if c = "m" then Except.ok (Event.marker time d)
              else Except.error (CastError.invalidEventCode (PVal.str c) lineNo)
          | other => Except.error (CastError.invalidEventCode other lineNo)
  | _ => Except.error (CastError.invalidEvent lineNo)

/-- The event loop of `parse_cast` over `data[1:]`, keeping file order. -/
def parse_events (lineNo : Nat) : List PVal → Except CastError (List Event)
  | [] => Except.ok []
  | line :: rest => do
      let e ← parse_event lineNo line
      let es ← parse_events (lineNo + 1) rest
      Except.ok (e :: es)

/-- First-match association-list lookup (a decoded JSON object has no
duplicate keys, `json.loads` keeps only the last of any duplicates). -/
def lookupKey (k : String) : List (String × PVal) → Option PVal
  | [] => Option.none
  | kv :: rest => if kv.1 = k then Option.some kv.2 else lookupKey k rest

def headerFieldNames : List String :=
  ["version", "width", "height", "timestamp", "duration", "idle_time_limit",
   "command", "title", "env", "theme"]

/-- `Header(**data[0])`: `TypeError` (reported as `'Invalid header data'`)
exactly when some key is not a field name or a required field
(`version`, `width`, `height`) is missing; field values are stored
unchecked, absent optional fields default to `None`. -/
def headerFromDict (kvs : List (String × PVal)) : Except CastError Header :=
  if kvs.all (fun kv => headerFieldNames.contains kv.1)
      && (lookupKey "version" kvs).isSome
      && (lookupKey "width" kvs).isSome
      && (lookupKey "height" kvs).isSome then
    Except.ok
      { version := (lookupKey "version" kvs).getD PVal.none
        width := (lookupKey "width" kvs).getD PVal.none
        height := (lookupKey "height" kvs).getD PVal.none
        timestamp := (lookupKey "timestamp" kvs).getD PVal.none
        duration := (lookupKey "duration" kvs).getD PVal.none
        idle_time_limit := (lookupKey "idle_time_limit" kvs).getD PVal.none
        command := (lookupKey "command" kvs).getD PVal.none
        title := (lookupKey "title" kvs).getD PVal.none
        env := (lookupKey "env" kvs).getD PVal.none
        theme := (lookupKey "theme" kvs).getD PVal.none }
  else Except.error CastError.invalidHeader

/-- The aggregate: header plus ordered event sequence. -/
structure AsciiCast where
  header : Header
  events : List Event

/-- `parse_cast(data)` over already-decoded lines: empty input indexes out
of range; a non-dict line 0 is a missing header; a dict line 0 is decoded
and its version checked against 2 before any event line is interpreted. -/
def parse_cast (data : List PVal) : Except CastError AsciiCast :=
  match data with
  | [] => Except.error CastError.indexError
  | first :: rest =>
      match first with
      | PVal.dict kvs =>
          match headerFromDict kvs with
          | Except.error e => Except.error e
          | Except.ok header =>
              if pyEqInt header.version 2 = false then
                Except.error (CastError.unsupportedVersion header.version)
              else
                match parse_events 1 rest with
                | Except.error e => Except.error e
                | Except.ok events => Except.ok ⟨header, events⟩
      | _ => Except.error CastError.missingHeader

/-- `event.as_data()`: the wire record of an event; a `CommentEvent`
raises (`'Comment events must be filtered'`). -/
def Event.as_data : Event → Except CastError PVal
  | Event.output t d => Except.ok (PVal.list [PVal.float t, PVal.str "o", d])
  | Event.input t d => Except.ok (PVal.list [PVal.float t, PVal.str "i", d])
  | Event.marker t l => Except.ok (PVal.list [PVal.float t, PVal.str "m", l])
  | Event.comment _ _ _ => Except.error CastError.serializingComment
  | Event.resize t c r =>
      Except.ok (PVal.list [PVal.float t, PVal.str "r",
        PVal.str (pyIntStr c ++ "x" ++ pyIntStr r)])

/-- The `json.dumps` step of `to_lines`: it raises `TypeError` on values
that are not JSON serializable and is otherwise inverted exactly by
`json.loads`, so a line is modelled by its decoded record. -/
def dumpsOk (v : PVal) : Except CastError PVal :=
  if v.jsonSafe then Except.ok v else Except.error CastError.typeError

/-- `AsciiCast.to_lines`: header record first, then one record per event
in stream order, each rendered by `json.dumps`. -/
def AsciiCast.to_lines (c : AsciiCast) : Except CastError (List PVal) := do
  let eventRecords ← c.events.mapM Event.as_data
  (c.header.as_data :: eventRecords).mapM dumpsOk

/-- `save` then `load`: serialize to lines, decode them back, parse. -/
def roundTrip (c : AsciiCast) : Except CastError AsciiCast :=
  c.to_lines.bind parse_cast

/-- Python `sorted` on the event times. -/
def pySorted (l : List ℚ) : List ℚ := l.insertionSort (fun a b => a ≤ b)

/-- The inner `while next_event.time < current_event.time` drain loop of
`insert_events`: returns the drained incoming events, the new
`next_event` (`none` after exhaustion) and the new remaining list. -/
def drainWhile (current : Event) : Event → List Event → List Event × Option Event × List Event
  | nxt, rem =>
    if nxt.time < current.time then
      match rem with
      | [] => ([nxt], Option.none, [])
      | r :: rs =>
          let res := drainWhile current r rs
          (nxt :: res.1, res.2.1, res.2.2)
    else ([], Option.some nxt, rem)

/-- The `for current_event in self.events` merge loop of `insert_events`,
followed by the flush of `next_event` and `remaining_events`. -/
def mergeExisting : List Event → Option Event → List Event → List Event
  | [], nxt, rem => nxt.toList ++ rem
  | cur :: rest, Option.none, rem => cur :: mergeExisting rest Option.none rem
  | cur :: rest, Option.some nxt, rem =>
      if cur.time ≤ nxt.time then cur :: mergeExisting rest (Option.some nxt) rem
      else
        let res := drainWhile cur nxt rem
        res.1 ++ cur :: mergeExisting rest res.2.1 res.2.2

/-- `AsciiCast.insert_events`: identity on an empty batch; an empty
existing sequence short-circuits to the incoming batch before the
chronological-order check; otherwise the batch must be non-decreasing in
time (`ValueError` if not) and is merged in. -/
def AsciiCast.insert_events (c : AsciiCast) (events : List Event) : Except CastError AsciiCast :=
  match events with
  | [] => Except.ok c
  | e0 :: rest =>
      if c.events.length = 0 then Except.ok { c with events := events }
      else
        let event_times := (e0 :: rest).map Event.time
        if event_times ≠ pySorted event_times then Except.error CastError.unsortedInput
        else Except.ok { c with events := mergeExisting c.events (Option.some e0) rest }

/-- Modelled from the spec (§4.3), as the refinement target for the merge:
the standard two-pointer stable merge of two time-sorted sequences, with
the documented tie-break that an existing event is placed before an
incoming event when their times are equal. -/
def specMerge : List Event → List Event → List Event
  | [], ys => ys
  | xs, [] => xs
  | x :: xs, y :: ys =>
      if y.time < x.time then y :: specMerge (x :: xs) ys
      else x :: specMerge xs (y :: ys)
termination_by xs ys => xs.length + ys.length

/-- Chronological order on events. -/
def timeLE (a b : Event) : Prop := a.time ≤ b.time

instance : DecidableRel timeLE := fun a b => inferInstanceAs (Decidable (a.time ≤ b.time))

/-- Python `label == target` where `target` is a `str`: values of other
types never compare equal to a string. -/
def labelMatches (label : PVal) (target : String) : Bool :=
  match label with
  | PVal.str s => s = target
  | _ => false

/-- `isinstance(event, MarkerEvent) and event.label == lbl`. -/
def isMarkerLabeled (lbl : String) (e : Event) : Bool :=
  match e with
  | Event.marker _ l => labelMatches l lbl
  | _ => false

/-- The scan of `StartMarkerFilter.apply` with its `started` flag: events
are dropped until the first marker with the given label (inclusive), and
everything after it is kept. -/
def StartMarkerFilter.go (start_label : String) (started : Bool) : List Event → List Event
  | [] => []
  | e :: rest =>
      if started then e :: StartMarkerFilter.go start_label true rest
      else if isMarkerLabeled start_label e then StartMarkerFilter.go start_label true rest
      else StartMarkerFilter.go start_label false rest

/-- `StartMarkerFilter(start_label).apply(header, events)` (the header is
unused). -/
def StartMarkerFilter.apply (start_label : String) (events : List Event) : List Event :=
  StartMarkerFilter.go start_label false events

/-- `EndMarkerFilter(end_label).apply(header, events)`: events are kept
until the first marker with the given label, which `break`s the loop
before being appended. -/
def EndMarkerFilter.apply (end_label : String) : List Event → List Event
  | [] => []
  | e :: rest =>
      if isMarkerLabeled end_label e then []
      else e :: EndMarkerFilter.apply end_label rest

/-- Python `format(s, '^N')` as used by `f'{comment:^{num_cols}}'`: the
string unchanged when already at least `width` long, otherwise centered
with `pad / 2` spaces on the left and the rest (the extra space of an odd
pad) on the right. -/
def pyCenter (s : String) (width : Nat) : String :=
  if width ≤ s.length then s
  else
    let pad := width - s.length
    let lpad := pad / 2
    String.mk (List.replicate lpad ' ') ++ s ++ String.mk (List.replicate (pad - lpad) ' ')

/-- `CommentFilter.modify_event`: a `CommentEvent` becomes an
`OutputEvent` at the same time whose payload saves the cursor, moves to
column 1 of row 1 (`top`) or row `num_rows`, writes the centered comment
in reverse video, and restores the cursor; other events pass through. -/
def CommentFilter.modify_event (num_cols : Nat) (num_rows : Int) : Event → Event
  | Event.comment t top text =>
      let line_num : Int := if top then 1 else num_rows
      let comment := "\x1b[7m" ++ pyCenter text num_cols ++ "\x1b[m"
      Event.output t (PVal.str ("\x1b[s\x1b[" ++ toString line_num ++ ";1H" ++ comment ++ "\x1b[u"))
  | e => e

/-- `CommentFilter().apply(header, events)`: reads `header.width` and
`header.height`.  The Python format spec `^{num_cols}` raises unless the
width is a non-negative integer, and the only geometry this program
produces is integral, so only integer geometry is modelled (`none`
otherwise). -/
def CommentFilter.apply (header : Header) (events : List Event) : Option (List Event) :=
  match header.width, header.height with
  | PVal.int w, PVal.int h =>
      if 0 ≤ w then Option.some (events.map (CommentFilter.modify_event w.toNat h))
      else Option.none
  | _, _ => Option.none

/-- An event `as_data` can emit and `json.dumps` can render, and whose
record parses back to the same event: no `CommentEvent`, JSON-safe
payloads, non-negative resize geometry. -/
def wireOk : Event → Bool
  | Event.output _ d => d.jsonSafe
  | Event.input _ d => d.jsonSafe
  | Event.marker _ l => l.jsonSafe
  | Event.comment _ _ _ => false
  | Event.resize _ c r => decide (0 ≤ c) && decide (0 ≤ r)

/-- A header that serializes and parses back to itself: a version equal
to the integer 2 (the format gate), present `width`/`height`, and
JSON-compatible field values (in particular no `Theme` instance in
`theme`: `asdict` turns it into a plain dict that `Header(**...)` does
not convert back). -/
def validHeader (h : Header) : Bool :=
  pyEqInt h.version 2 && !h.width.isNone && !h.height.isNone &&
    h.version.jsonSafe && h.width.jsonSafe && h.height.jsonSafe &&
    h.timestamp.jsonSafe && h.duration.jsonSafe && h.idle_time_limit.jsonSafe &&
    h.command.jsonSafe && h.title.jsonSafe && h.env.jsonSafe && h.theme.jsonSafe

/-- A valid AsciiCast value in the sense of the round-trip property. -/
def ValidCast (c : AsciiCast) : Bool :=
  validHeader c.header && c.events.all wireOk

/-- An 80x24 version-2 header, used as concrete input. -/
def sampleHeader : Header :=
  { version := PVal.int 2, width := PVal.int 80, height := PVal.int 24 }

/-! ## Properties of the chronological merge -/

theorem specMerge_nil_left (ys : List Event) : specMerge [] ys = ys := by
  cases ys <;> simp [specMerge]

theorem specMerge_nil_right (xs : List Event) : specMerge xs [] = xs := by
  cases xs <;> simp [specMerge]

theorem specMerge_cons_cons (x : Event) (xs : List Event) (y : Event) (ys : List Event) :
    specMerge (x :: xs) (y :: ys) =
      if y.time < x.time then y :: specMerge (x :: xs) ys
      else x :: specMerge xs (y :: ys) := by
  simp [specMerge]

/-- The two-level induction that follows the recursion of `specMerge`. -/
theorem specMerge_induction (P : List Event → List Event → Prop)
    (hnl : ∀ ys, P [] ys) (hnr : ∀ x xs, P (x :: xs) [])
    (hlt : ∀ x xs y ys, y.time < x.time → P (x :: xs) ys → P (x :: xs) (y :: ys))
    (hge : ∀ x xs y ys, ¬y.time < x.time → P xs (y :: ys) → P (x :: xs) (y :: ys)) :
    ∀ ys xs, P xs ys := by
  intro ys
  induction ys with
  | nil =>
      intro xs
      cases xs with
      | nil => exact hnl []
      | cons x xs => exact hnr x xs
  | cons y ys ihy =>
      intro xs
      induction xs with
      | nil => exact hnl (y :: ys)
      | cons x xs ihx =>
          by_cases h : y.time < x.time
          · exact hlt x xs y ys h (ihy (x :: xs))
          · exact hge x xs y ys h ihx

theorem specMerge_length : ∀ ys xs : List Event,
    (specMerge xs ys).length = xs.length + ys.length := by
  refine specMerge_induction (fun xs ys => (specMerge xs ys).length = xs.length + ys.length)
    ?_ ?_ ?_ ?_
  · intro ys; simp [specMerge_nil_left]
  · intro x xs; simp [specMerge_nil_right]
  · intro x xs y ys h ih
    rw [specMerge_cons_cons, if_pos h]
    simp [ih]; omega
  · intro x xs y ys h ih
    rw [specMerge_cons_cons, if_neg h]
    simp [ih]; omega

theorem sublist_left_specMerge : ∀ ys xs : List Event, List.Sublist xs (specMerge xs ys) := by
  refine specMerge_induction (fun xs ys => List.Sublist xs (specMerge xs ys)) ?_ ?_ ?_ ?_
  · intro ys; simp [specMerge_nil_left]
  · intro x xs; simp [specMerge_nil_right]
  · intro x xs y ys h ih
    rw [specMerge_cons_cons, if_pos h]
    exact ih.cons y
  · intro x xs y ys h ih
    rw [specMerge_cons_cons, if_neg h]
    exact ih.cons₂ x

theorem sublist_right_specMerge : ∀ ys xs : List Event, List.Sublist ys (specMerge xs ys) := by
  refine specMerge_induction (fun xs ys => List.Sublist ys (specMerge xs ys)) ?_ ?_ ?_ ?_
  · intro ys; simp [specMerge_nil_left]
  · intro x xs; simp [specMerge_nil_right]
  · intro x xs y ys h ih
    rw [specMerge_cons_cons, if_pos h]
    exact ih.cons₂ y
  · intro x xs y ys h ih
    rw [specMerge_cons_cons, if_neg h]
    exact ih.cons x

theorem mem_specMerge : ∀ ys xs (z : Event), z ∈ specMerge xs ys → z ∈ xs ∨ z ∈ ys := by
  refine specMerge_induction (fun xs ys => ∀ z, z ∈ specMerge xs ys → z ∈ xs ∨ z ∈ ys) ?_ ?_ ?_ ?_
  · intro ys z h; rw [specMerge_nil_left] at h; exact Or.inr h
  · intro x xs z h; rw [specMerge_nil_right] at h; exact Or.inl h
  · intro x xs y ys h ih z hz
    rw [specMerge_cons_cons, if_pos h] at hz
    rcases List.mem_cons.mp hz with hz | hz
    · exact Or.inr (hz ▸ List.mem_cons_self y ys)
    · rcases ih z hz with hx | hy
      · exact Or.inl hx
      · exact Or.inr (List.mem_cons_of_mem y hy)
  · intro x xs y ys h ih z hz
    rw [specMerge_cons_cons, if_neg h] at hz
    rcases List.mem_cons.mp hz with hz | hz
    · exact Or.inl (hz ▸ List.mem_cons_self x xs)
    · rcases ih z hz with hx | hy
      · exact Or.inl (List.mem_cons_of_mem x hx)
      · exact Or.inr hy

/-- The merge of two time-sorted sequences is time-sorted. -/
theorem specMerge_sorted : ∀ ys xs : List Event, List.Pairwise timeLE xs →
    List.Pairwise timeLE ys → List.Pairwise timeLE (specMerge xs ys) := by
  refine specMerge_induction
    (fun xs ys => List.Pairwise timeLE xs → List.Pairwise timeLE ys →
      List.Pairwise timeLE (specMerge xs ys)) ?_ ?_ ?_ ?_
  · intro ys _ hy; simpa [specMerge_nil_left] using hy
  · intro x xs hx _; simpa [specMerge_nil_right] using hx
  · intro x xs y ys h ih hx hy
    rw [specMerge_cons_cons, if_pos h]
    refine List.pairwise_cons.mpr ⟨?_, ih hx (List.pairwise_cons.mp hy).2⟩
    intro z hz
    rcases mem_specMerge ys (x :: xs) z hz with hzx | hzy
    · rcases List.mem_cons.mp hzx with rfl | hzx
      · exact le_of_lt h
      · exact le_trans (le_of_lt h) ((List.pairwise_cons.mp hx).1 z hzx)
    · exact (List.pairwise_cons.mp hy).1 z hzy
  · intro x xs y ys h ih hx hy
    rw [specMerge_cons_cons, if_neg h]
    refine List.pairwise_cons.mpr ⟨?_, ih (List.pairwise_cons.mp hx).2 hy⟩
    intro z hz
    rcases mem_specMerge (y :: ys) xs z hz with hzx | hzy
    · exact (List.pairwise_cons.mp hx).1 z hzx
    · rcases List.mem_cons.mp hzy with rfl | hzy
      · exact not_lt.mp h
      · exact le_trans (not_lt.mp h) ((List.pairwise_cons.mp hy).1 z hzy)

theorem drainWhile_of_ge (cur nxt : Event) (rem : List Event) (h : ¬nxt.time < cur.time) :
    drainWhile cur nxt rem = ([], Option.some nxt, rem) := by
  unfold drainWhile; rw [if_neg h]

theorem drainWhile_of_lt_nil (cur nxt : Event) (h : nxt.time < cur.time) :
    drainWhile cur nxt [] = ([nxt], Option.none, []) := by
  unfold drainWhile; rw [if_pos h]

theorem drainWhile_of_lt_cons (cur nxt r : Event) (rs : List Event) (h : nxt.time < cur.time) :
    drainWhile cur nxt (r :: rs) =
      (nxt :: (drainWhile cur r rs).1, (drainWhile cur r rs).2.1, (drainWhile cur r rs).2.2) := by
  conv_lhs => unfold drainWhile
  rw [if_pos h]

theorem mergeExisting_none_nil : ∀ xs : List Event, mergeExisting xs Option.none [] = xs := by
  intro xs
  induction xs with
  | nil => rfl
  | cons x xs ih => simpa [mergeExisting] using ih

theorem mergeExisting_cons_of_le (c : Event) (rest : List Event) (nxt : Event)
    (rem : List Event) (h : c.time ≤ nxt.time) :
    mergeExisting (c :: rest) (Option.some nxt) rem =
      c :: mergeExisting rest (Option.some nxt) rem := by
  simp [mergeExisting, h]

theorem mergeExisting_cons_of_gt (c : Event) (rest : List Event) (nxt : Event)
    (rem : List Event) (h : ¬c.time ≤ nxt.time) :
    mergeExisting (c :: rest) (Option.some nxt) rem =
      (drainWhile c nxt rem).1 ++
        c :: mergeExisting rest (drainWhile c nxt rem).2.1 (drainWhile c nxt rem).2.2 := by
  simp [mergeExisting, h]

/-- Unfolding step of the merge loop when the incoming head is strictly
earlier and incoming is exhausted afterwards. -/
theorem mergeExisting_step_lt_nil (c : Event) (rest : List Event) (y : Event)
    (h : y.time < c.time) :
    mergeExisting (c :: rest) (Option.some y) [] = y :: c :: rest := by
  have hle : ¬c.time ≤ y.time := not_le.mpr h
  rw [mergeExisting_cons_of_gt c rest y [] hle, drainWhile_of_lt_nil c y h]
  simp [mergeExisting_none_nil]

/-- Unfolding step of the merge loop when the incoming head is strictly
earlier: it is emitted first and the loop state advances to the next
incoming event. -/
theorem mergeExisting_step_lt_cons (c : Event) (rest : List Event) (y r : Event)
    (rs : List Event) (h : y.time < c.time) :
    mergeExisting (c :: rest) (Option.some y) (r :: rs) =
      y :: mergeExisting (c :: rest) (Option.some r) rs := by
  have hle : ¬c.time ≤ y.time := not_le.mpr h
  rw [mergeExisting_cons_of_gt c rest y (r :: rs) hle, drainWhile_of_lt_cons c y r rs h]
  by_cases hcr : c.time ≤ r.time
  · rw [drainWhile_of_ge c r rs (not_lt.mpr hcr)]
    simp [mergeExisting_cons_of_le c rest r rs hcr]
  · simp [mergeExisting_cons_of_gt c rest r rs hcr]

/-- The merge loop of `insert_events` computes exactly the stable merge
described by the spec. -/
theorem mergeExisting_eq_specMerge : ∀ (ys xs : List Event) (y : Event),
    mergeExisting xs (Option.some y) ys = specMerge xs (y :: ys) := by
  intro ys
  induction ys with
  | nil =>
      intro xs y
      induction xs with
      | nil => simp [mergeExisting, specMerge_nil_left]
      | cons c rest ih =>
          by_cases h : c.time ≤ y.time
          · rw [mergeExisting_cons_of_le c rest y [] h, ih, specMerge_cons_cons,
              if_neg (not_lt.mpr h)]
          · have hlt : y.time < c.time := not_le.mp h
            rw [mergeExisting_step_lt_nil c rest y hlt, specMerge_cons_cons, if_pos hlt,
              specMerge_nil_right]
  | cons r rs ihy =>
      intro xs y
      induction xs with
      | nil => simp [mergeExisting, specMerge_nil_left]
      | cons c rest ihx =>
          by_cases h : c.time ≤ y.time
          · rw [mergeExisting_cons_of_le c rest y (r :: rs) h, ihx, specMerge_cons_cons,
              if_neg (not_lt.mpr h)]
          · have hlt : y.time < c.time := not_le.mp h
            rw [mergeExisting_step_lt_cons c rest y r rs hlt, specMerge_cons_cons, if_pos hlt,
              ihy (c :: rest) r]

theorem pySorted_eq_self_of_sorted {l : List ℚ} (h : List.Pairwise (fun a b : ℚ => a ≤ b) l) :
    pySorted l = l :=
  List.Sorted.insertionSort_eq h

theorem sorted_of_pySorted_eq_self {l : List ℚ} (h : pySorted l = l) :
    List.Pairwise (fun a b : ℚ => a ≤ b) l := by
  have := List.sorted_insertionSort (fun a b : ℚ => a ≤ b) l
  rw [pySorted] at h
  rwa [h] at this

/-- Sortedness of event sequences transfers to their time lists. -/
theorem pairwise_time_map {l : List Event} (h : List.Pairwise timeLE l) :
    List.Pairwise (fun a b : ℚ => a ≤ b) (l.map Event.time) :=
  List.Pairwise.map Event.time (fun _ _ hab => hab) h

/-- `insert_events` on sorted inputs: it succeeds and returns the stable
merge of the two sequences. -/
theorem insert_events_eq_specMerge (c : AsciiCast) (incoming : List Event)
    (hinc : List.Pairwise timeLE incoming) :
    c.insert_events incoming = Except.ok { c with events := specMerge c.events incoming } := by
  cases incoming with
  | nil =>
      simp [AsciiCast.insert_events, specMerge_nil_right]
  | cons e0 rest =>
      rw [AsciiCast.insert_events]
      by_cases hev : c.events.length = 0
      · have : c.events = [] := List.length_eq_zero.mp hev
        rw [if_pos hev, this, specMerge_nil_left]
      · rw [if_neg hev]
        have hsorted : ((e0 :: rest).map Event.time) =
            pySorted ((e0 :: rest).map Event.time) :=
          (pySorted_eq_self_of_sorted (pairwise_time_map hinc)).symm
        rw [if_neg (by simpa using hsorted)]
        rw [mergeExisting_eq_specMerge rest c.events e0]

/-- Claim C3: for all time-sorted existing and incoming event sequences,
`insert_events` succeeds and returns exactly the stable two-pointer merge
(`specMerge`, which places an existing event before an incoming event at
equal times); the result is sorted, has length equal to the sum of the
input lengths, and contains both inputs as subsequences (a stable
interleaving). -/
theorem insert_events_stable_merge (c : AsciiCast) (incoming : List Event)
    (hex : List.Pairwise timeLE c.events) (hinc : List.Pairwise timeLE incoming) :
    c.insert_events incoming = Except.ok { c with events := specMerge c.events incoming } ∧
    List.Pairwise timeLE (specMerge c.events incoming) ∧
    (specMerge c.events incoming).length = c.events.length + incoming.length ∧
    List.Sublist c.events (specMerge c.events incoming) ∧
    List.Sublist incoming (specMerge c.events incoming) :=
  ⟨insert_events_eq_specMerge c incoming hinc,
   specMerge_sorted incoming c.events hex hinc,
   specMerge_length incoming c.events,
   sublist_left_specMerge incoming c.events,
   sublist_right_specMerge incoming c.events⟩

/-- The spec's merge scenario: existing `[[1.0,"o","x"]]` and incoming
`[[0.5,"m","pre"],[1.0,"m","tie"],[1.5,"m","post"]]` merge to
`[[0.5,"m","pre"],[1.0,"o","x"],[1.0,"m","tie"],[1.5,"m","post"]]`, with
the existing event before the equal-time incoming marker. -/
theorem insert_events_stable_merge_witness :
    List.Pairwise timeLE [Event.output 1 (PVal.str "x")] ∧
    List.Pairwise timeLE [Event.marker (1 / 2) (PVal.str "pre"),
      Event.marker 1 (PVal.str "tie"), Event.marker (3 / 2) (PVal.str "post")] ∧
    (AsciiCast.mk sampleHeader [Event.output 1 (PVal.str "x")]).insert_events
        [Event.marker (1 / 2) (PVal.str "pre"), Event.marker 1 (PVal.str "tie"),
         Event.marker (3 / 2) (PVal.str "post")] =
      Except.ok (AsciiCast.mk sampleHeader
        [Event.marker (1 / 2) (PVal.str "pre"), Event.output 1 (PVal.str "x"),
         Event.marker 1 (PVal.str "tie"), Event.marker (3 / 2) (PVal.str "post")]) := by
  have hinc : List.Pairwise timeLE [Event.marker (1 / 2) (PVal.str "pre"),
      Event.marker 1 (PVal.str "tie"), Event.marker (3 / 2) (PVal.str "post")] := by
    norm_num [List.pairwise_cons, timeLE, Event.time]
  refine ⟨by simp [List.pairwise_singleton], hinc, ?_⟩
  rw [(insert_events_stable_merge (AsciiCast.mk sampleHeader [Event.output 1 (PVal.str "x")])
    [Event.marker (1 / 2) (PVal.str "pre"), Event.marker 1 (PVal.str "tie"),
     Event.marker (3 / 2) (PVal.str "post")] (by simp [List.pairwise_singleton]) hinc).1]
  norm_num [specMerge_cons_cons, specMerge_nil_left, specMerge_nil_right, Event.time]

/-- Claim C2 (amended): merging a batch whose times are not non-decreasing
into a non-empty existing sequence fails with the `UnsortedInput` contract
error (and, the result being an error, no partial merge is produced). -/
theorem insert_events_unsorted_error (c : AsciiCast) (incoming : List Event)
    (hne : c.events ≠ [])
    (hun : ¬List.Pairwise (fun a b : ℚ => a ≤ b) (incoming.map Event.time)) :
    c.insert_events incoming = Except.error CastError.unsortedInput := by
  cases incoming with
  | nil => exact absurd List.Pairwise.nil hun
  | cons e0 rest =>
      rw [AsciiCast.insert_events]
      rw [if_neg (fun h => hne (List.length_eq_zero.mp h))]
      rw [if_pos]
      intro heq
      exact hun (sorted_of_pySorted_eq_self heq.symm)

theorem insert_events_unsorted_error_witness :
    (AsciiCast.mk sampleHeader [Event.output 0 (PVal.str "x")]).events ≠ [] ∧
    ¬List.Pairwise (fun a b : ℚ => a ≤ b)
      ([Event.marker 1 (PVal.str "a"), Event.marker 0 (PVal.str "b")].map Event.time) ∧
    (AsciiCast.mk sampleHeader [Event.output 0 (PVal.str "x")]).insert_events
        [Event.marker 1 (PVal.str "a"), Event.marker 0 (PVal.str "b")] =
      Except.error CastError.unsortedInput := by
  have hun : ¬List.Pairwise (fun a b : ℚ => a ≤ b)
      ([Event.marker 1 (PVal.str "a"), Event.marker 0 (PVal.str "b")].map Event.time) := by
    norm_num [List.pairwise_cons, Event.time]
  exact ⟨by simp, hun,
    insert_events_unsorted_error (AsciiCast.mk sampleHeader [Event.output 0 (PVal.str "x")])
      [Event.marker 1 (PVal.str "a"), Event.marker 0 (PVal.str "b")]
      (by simp) hun⟩

/-- Claim C2 is false as stated for an empty existing sequence: the
`len(self.events) == 0` short-circuit of `insert_events` returns the
incoming batch before the chronological-order check runs, so an unsorted
batch is accepted unchanged instead of raising `UnsortedInput`. -/
theorem insert_events_empty_existing_skips_check :
    ¬List.Pairwise (fun a b : ℚ => a ≤ b)
      ([Event.marker 1 (PVal.str "a"), Event.marker 0 (PVal.str "b")].map Event.time) ∧
    (AsciiCast.mk sampleHeader []).insert_events
        [Event.marker 1 (PVal.str "a"), Event.marker 0 (PVal.str "b")] =
      Except.ok (AsciiCast.mk sampleHeader
        [Event.marker 1 (PVal.str "a"), Event.marker 0 (PVal.str "b")]) :=
  ⟨by norm_num [List.pairwise_cons, Event.time], rfl⟩

/-! ## Properties of the marker and comment filters -/

theorem start_go_true (lbl : String) : ∀ l : List Event, StartMarkerFilter.go lbl true l = l := by
  intro l
  induction l with
  | nil => rfl
  | cons e rest ih => simpa [StartMarkerFilter.go] using ih

theorem start_go_false_skip (lbl : String) (e : Event) (rest : List Event)
    (h : isMarkerLabeled lbl e = false) :
    StartMarkerFilter.go lbl false (e :: rest) = StartMarkerFilter.go lbl false rest := by
  simp [StartMarkerFilter.go, h]

theorem start_go_false_hit (lbl : String) (m : Event) (post : List Event)
    (h : isMarkerLabeled lbl m = true) :
    StartMarkerFilter.go lbl false (m :: post) = StartMarkerFilter.go lbl true post := by
  simp [StartMarkerFilter.go, h]

/-- Claim C5: `StartMarkerFilter(label)` drops every event up to and
including the first marker whose label equals the given label and keeps
everything after it; when no such marker occurs, the output is the empty
sequence (fail-closed), never a passthrough. -/
theorem StartMarkerFilter_semantics (lbl : String) :
    (∀ (pre post : List Event) (m : Event),
      (∀ e ∈ pre, isMarkerLabeled lbl e = false) → isMarkerLabeled lbl m = true →
      StartMarkerFilter.apply lbl (pre ++ m :: post) = post) ∧
    (∀ evs : List Event, (∀ e ∈ evs, isMarkerLabeled lbl e = false) →
      StartMarkerFilter.apply lbl evs = []) := by
  constructor
  · intro pre post m hpre hm
    induction pre with
    | nil =>
        rw [List.nil_append, StartMarkerFilter.apply, start_go_false_hit lbl m post hm,
          start_go_true lbl post]
    | cons e pre ih =>
        rw [List.cons_append, StartMarkerFilter.apply,
          start_go_false_skip lbl e _ (hpre e (List.mem_cons_self e pre))]
        exact ih fun x hx => hpre x (List.mem_cons_of_mem e hx)
  · intro evs hevs
    induction evs with
    | nil => rfl
    | cons e rest ih =>
        rw [StartMarkerFilter.apply,
          start_go_false_skip lbl e rest (hevs e (List.mem_cons_self e rest))]
        exact ih fun x hx => hevs x (List.mem_cons_of_mem e hx)

/-- The spec's scenario for C5: on `[[0.0,"m","A"],[1.0,"o","hi"],[2.0,"m","B"]]`
the filter with label `A` yields `[[1.0,"o","hi"],[2.0,"m","B"]]`; with a
label that never occurs it yields the empty sequence. -/
theorem StartMarkerFilter_semantics_witness :
    StartMarkerFilter.apply "A" [Event.marker 0 (PVal.str "A"), Event.output 1 (PVal.str "hi"),
        Event.marker 2 (PVal.str "B")] =
      [Event.output 1 (PVal.str "hi"), Event.marker 2 (PVal.str "B")] ∧
    StartMarkerFilter.apply "X" [Event.marker 0 (PVal.str "A"), Event.output 1 (PVal.str "hi"),
        Event.marker 2 (PVal.str "B")] = [] :=
  ⟨(StartMarkerFilter_semantics "A").1 []
      [Event.output 1 (PVal.str "hi"), Event.marker 2 (PVal.str "B")]
      (Event.marker 0 (PVal.str "A")) (by intro e he; exact absurd he (List.not_mem_nil e)) rfl,
   (StartMarkerFilter_semantics "X").2
      [Event.marker 0 (PVal.str "A"), Event.output 1 (PVal.str "hi"),
        Event.marker 2 (PVal.str "B")]
      (by
        intro e he
        rcases List.mem_cons.mp he with rfl | he
        · rfl
        rcases List.mem_cons.mp he with rfl | he
        · rfl
        rcases List.mem_cons.mp he with rfl | he
        · rfl
        · exact absurd he (List.not_mem_nil e))⟩

theorem end_apply_cons_skip (lbl : String) (e : Event) (rest : List Event)
    (h : isMarkerLabeled lbl e = false) :
    EndMarkerFilter.apply lbl (e :: rest) = e :: EndMarkerFilter.apply lbl rest := by
  simp [EndMarkerFilter.apply, h]

theorem end_apply_cons_hit (lbl : String) (m : Event) (post : List Event)
    (h : isMarkerLabeled lbl m = true) :
    EndMarkerFilter.apply lbl (m :: post) = [] := by
  simp [EndMarkerFilter.apply, h]

/-- Claim C6: `EndMarkerFilter(label)` keeps exactly the events strictly
before the first marker whose label equals the given label, excluding
that marker and everything after it; when no such marker occurs, the
whole input passes through unchanged (fail-open). -/
theorem EndMarkerFilter_semantics (lbl : String) :
    (∀ (pre post : List Event) (m : Event),
      (∀ e ∈ pre, isMarkerLabeled lbl e = false) → isMarkerLabeled lbl m = true →
      EndMarkerFilter.apply lbl (pre ++ m :: post) = pre) ∧
    (∀ evs : List Event, (∀ e ∈ evs, isMarkerLabeled lbl e = false) →
      EndMarkerFilter.apply lbl evs = evs) := by
  constructor
  · intro pre post m hpre hm
    induction pre with
    | nil => rw [List.nil_append, end_apply_cons_hit lbl m post hm]
    | cons e pre ih =>
        rw [List.cons_append, end_apply_cons_skip lbl e _ (hpre e (List.mem_cons_self e pre)),
          ih fun x hx => hpre x (List.mem_cons_of_mem e hx)]
  · intro evs hevs
    induction evs with
    | nil => rfl
    | cons e rest ih =>
        rw [end_apply_cons_skip lbl e rest (hevs e (List.mem_cons_self e rest)),
          ih fun x hx => hevs x (List.mem_cons_of_mem e hx)]

/-- The spec's scenario for C6: on `[[0.0,"m","A"],[1.0,"o","hi"],[2.0,"m","B"]]`
the filter with label `B` yields `[[0.0,"m","A"],[1.0,"o","hi"]]`; with a
label that never occurs the input passes through unchanged. -/
theorem EndMarkerFilter_semantics_witness :
    EndMarkerFilter.apply "B" [Event.marker 0 (PVal.str "A"), Event.output 1 (PVal.str "hi"),
        Event.marker 2 (PVal.str "B")] =
      [Event.marker 0 (PVal.str "A"), Event.output 1 (PVal.str "hi")] ∧
    EndMarkerFilter.apply "X" [Event.marker 0 (PVal.str "A"), Event.output 1 (PVal.str "hi"),
        Event.marker 2 (PVal.str "B")] =
      [Event.marker 0 (PVal.str "A"), Event.output 1 (PVal.str "hi"),
        Event.marker 2 (PVal.str "B")] :=
  ⟨(EndMarkerFilter_semantics "B").1
      [Event.marker 0 (PVal.str "A"), Event.output 1 (PVal.str "hi")] []
      (Event.marker 2 (PVal.str "B"))
      (by
        intro e he
        rcases List.mem_cons.mp he with rfl | he
        · rfl
        rcases List.mem_cons.mp he with rfl | he
        · rfl
        · exact absurd he (List.not_mem_nil e)) rfl,
   (EndMarkerFilter_semantics "X").2
      [Event.marker 0 (PVal.str "A"), Event.output 1 (PVal.str "hi"),
        Event.marker 2 (PVal.str "B")]
      (by
        intro e he
        rcases List.mem_cons.mp he with rfl | he
        · rfl
        rcases List.mem_cons.mp he with rfl | he
        · rfl
        rcases List.mem_cons.mp he with rfl | he
        · rfl
        · exact absurd he (List.not_mem_nil e))⟩

/-- Claim C7: with an integer header geometry, one application of
`CommentFilter` maps every event through `modify_event`; a comment event
becomes an output event at the same time whose payload is exactly
cursor-save, position to column 1 of row 1 (`top`) or row `height`,
reverse-video start, the text centered and space-padded to `width`
columns, reverse-video end, cursor-restore; non-comment events pass
through unchanged; and no comment event remains in the output. -/
theorem CommentFilter_semantics (header : Header) (w h : Int) (events : List Event)
    (hw : header.width = PVal.int w) (hh : header.height = PVal.int h) (h0 : 0 ≤ w) :
    CommentFilter.apply header events =
      Option.some (events.map (CommentFilter.modify_event w.toNat h)) ∧
    (∀ (t : ℚ) (top : Bool) (text : String),
      CommentFilter.modify_event w.toNat h (Event.comment t top text) =
        Event.output t (PVal.str ("\x1b[s\x1b[" ++ toString (if top then (1 : Int) else h) ++
          ";1H" ++ ("\x1b[7m" ++ pyCenter text w.toNat ++ "\x1b[m") ++ "\x1b[u"))) ∧
    (∀ e : Event, e.isComment = false → CommentFilter.modify_event w.toNat h e = e) ∧
    (∀ e ∈ events.map (CommentFilter.modify_event w.toNat h), e.isComment = false) := by
  refine ⟨?_, ?_, ?_, ?_⟩
  · rw [CommentFilter.apply, hw, hh]
    simp [h0]
  · intro t top text; rfl
  · intro e he
    cases e with
    | output t d => rfl
    | input t d => rfl
    | marker t l => rfl
    | comment t top text => exact absurd he (by simp [Event.isComment])
    | resize t c r => rfl
  · intro e he
    rcases List.mem_map.mp he with ⟨x, _, rfl⟩
    cases x <;> rfl

/-- Concrete C7 run: a 10x24 header turns `Comment(0, top=False, "hi")`
into the exact payload `ESC[s ESC[24;1H ESC[7m '    hi    ' ESC[m ESC[u`
and leaves the output event alone. -/
theorem CommentFilter_semantics_witness :
    CommentFilter.apply { version := PVal.int 2, width := PVal.int 10, height := PVal.int 24 }
        [Event.comment 0 false "hi", Event.output 1 (PVal.str "a")] =
      Option.some [Event.output 0 (PVal.str "\x1b[s\x1b[24;1H\x1b[7m    hi    \x1b[m\x1b[u"),
        Event.output 1 (PVal.str "a")] := by
  rw [(CommentFilter_semantics
    { version := PVal.int 2, width := PVal.int 10, height := PVal.int 24 } 10 24
    [Event.comment 0 false "hi", Event.output 1 (PVal.str "a")] rfl rfl (by decide)).1]
  rfl

/-! ## Properties of the parser -/

/-- Claim C8 is false as stated: the object `{"version": 3}` has a version
field different from 2, yet parsing fails with the generic
`'Invalid header data'` error, not `UnsupportedVersion`, because
`Header(**data[0])` raises `TypeError` (missing `width`/`height`) before
the version gate runs. -/
theorem version_gate_counterexample :
    parse_cast [PVal.dict [("version", PVal.int 3)]] = Except.error CastError.invalidHeader ∧
    Except.error (α := AsciiCast) CastError.invalidHeader ≠
      Except.error (CastError.unsupportedVersion (PVal.int 3)) :=
  ⟨rfl, fun h => by injection h with h2; exact CastError.noConfusion h2⟩

/-- Claim C8 (amended): when line 0 decodes to an object that successfully
constructs a `Header` (every key a field name; `version`, `width`,
`height` present) whose version is not equal to 2, parsing fails with
`UnsupportedVersion` carrying that version, regardless of the remaining
lines: the version is checked before any event line is interpreted. -/
theorem version_gate (kvs : List (String × PVal)) (rest : List PVal) (hdr : Header)
    (hok : headerFromDict kvs = Except.ok hdr) (hv : pyEqInt hdr.version 2 = false) :
    parse_cast (PVal.dict kvs :: rest) =
      Except.error (CastError.unsupportedVersion hdr.version) := by
  simp [parse_cast, hok, hv]

theorem version_gate_witness :
    headerFromDict [("version", PVal.int 3), ("width", PVal.int 80), ("height", PVal.int 24)] =
      Except.ok { version := PVal.int 3, width := PVal.int 80, height := PVal.int 24 } ∧
    pyEqInt (PVal.int 3) 2 = false ∧
    parse_cast [PVal.dict [("version", PVal.int 3), ("width", PVal.int 80),
        ("height", PVal.int 24)],
      PVal.list [PVal.float 0, PVal.str "o", PVal.str "x"],
      PVal.list [PVal.str "bogus"]] =
      Except.error (CastError.unsupportedVersion (PVal.int 3)) :=
  ⟨rfl, rfl,
   version_gate [("version", PVal.int 3), ("width", PVal.int 80), ("height", PVal.int 24)]
     [PVal.list [PVal.float 0, PVal.str "o", PVal.str "x"], PVal.list [PVal.str "bogus"]]
     { version := PVal.int 3, width := PVal.int 80, height := PVal.int 24 } rfl rfl⟩

/-- Claim C10: parsing enforces no ordering on event times.  Whenever the
header decodes with version 2 and every event line parses, `parse_cast`
succeeds and returns the events in file order, even when their times are
not non-decreasing, so the aggregate's ordering invariant is not
established at parse time. -/
theorem parse_cast_no_order_check (kvs : List (String × PVal)) (rest : List PVal)
    (hdr : Header) (evs : List Event)
    (hok : headerFromDict kvs = Except.ok hdr) (hv : pyEqInt hdr.version 2 = true)
    (hevs : parse_events 1 rest = Except.ok evs)
    (_hunsorted : ¬List.Pairwise (fun a b : ℚ => a ≤ b) (evs.map Event.time)) :
    parse_cast (PVal.dict kvs :: rest) = Except.ok ⟨hdr, evs⟩ := by
  simp [parse_cast, hok, hv, hevs]

theorem parse_cast_no_order_check_witness :
    parse_events 1 [PVal.list [PVal.float 1, PVal.str "o", PVal.str "a"],
        PVal.list [PVal.float 0, PVal.str "o", PVal.str "b"]] =
      Except.ok [Event.output 1 (PVal.str "a"), Event.output 0 (PVal.str "b")] ∧
    ¬List.Pairwise (fun a b : ℚ => a ≤ b)
      ([Event.output 1 (PVal.str "a"), Event.output 0 (PVal.str "b")].map Event.time) ∧
    parse_cast [PVal.dict [("version", PVal.int 2), ("width", PVal.int 80),
        ("height", PVal.int 24)],
      PVal.list [PVal.float 1, PVal.str "o", PVal.str "a"],
      PVal.list [PVal.float 0, PVal.str "o", PVal.str "b"]] =
      Except.ok ⟨{ version := PVal.int 2, width := PVal.int 80, height := PVal.int 24 },
        [Event.output 1 (PVal.str "a"), Event.output 0 (PVal.str "b")]⟩ := by
  have hunsorted : ¬List.Pairwise (fun a b : ℚ => a ≤ b)
      ([Event.output 1 (PVal.str "a"), Event.output 0 (PVal.str "b")].map Event.time) := by
    norm_num [List.pairwise_cons, Event.time]
  exact ⟨rfl, hunsorted,
    parse_cast_no_order_check
      [("version", PVal.int 2), ("width", PVal.int 80), ("height", PVal.int 24)]
      [PVal.list [PVal.float 1, PVal.str "o", PVal.str "a"],
        PVal.list [PVal.float 0, PVal.str "o", PVal.str "b"]]
      { version := PVal.int 2, width := PVal.int 80, height := PVal.int 24 }
      [Event.output 1 (PVal.str "a"), Event.output 0 (PVal.str "b")]
      rfl rfl rfl hunsorted⟩

/-- Claim C4 is false as stated: the event time is converted with
`float(...)`, which accepts negative numbers, so `[-1.0, "o", "x"]`
parses successfully instead of failing with `InvalidEventTime`. -/
theorem negative_time_accepted :
    parse_cast [PVal.dict [("version", PVal.int 2), ("width", PVal.int 80),
        ("height", PVal.int 24)],
      PVal.list [PVal.float (-1), PVal.str "o", PVal.str "x"]] =
      Except.ok ⟨{ version := PVal.int 2, width := PVal.int 80, height := PVal.int 24 },
        [Event.output (-1) (PVal.str "x")]⟩ := rfl

/-- Claim C4 (amended): element 0 of an event line is converted with
`float(...)`: every numeric value is accepted whatever its sign, and a
string that `float` cannot parse fails with the `InvalidEventTime` error,
whose message does not actually carry the line number (the source string
is missing its f-prefix).  The string branch is stated on the domain
where the rational model of `float(str)` is exact. -/
theorem event_time_parsing (lineNo : Nat) :
    (∀ (q : ℚ) (d : PVal),
      parse_event lineNo (PVal.list [PVal.float q, PVal.str "o", d]) =
        Except.ok (Event.output q d)) ∧
    (∀ (s : String) (code d : PVal), pyFloatStrInScope s = true →
      pyFloatOfChars s.toList = Option.none →
      parse_event lineNo (PVal.list [PVal.str s, code, d]) =
        Except.error CastError.invalidEventTime) := by
  constructor
  · intro q d; rfl
  · intro s code d _hscope hnone
    have hnone2 : pyFloatOfChars s.data = Option.none := hnone
    simp [parse_event, pyFloat, hnone2]

theorem event_time_parsing_witness :
    parse_event 1 (PVal.list [PVal.float (-1), PVal.str "o", PVal.str "x"]) =
      Except.ok (Event.output (-1) (PVal.str "x")) ∧
    pyFloatStrInScope "abc" = true ∧
    pyFloatOfChars "abc".toList = Option.none ∧
    parse_event 1 (PVal.list [PVal.str "abc", PVal.str "o", PVal.str "x"]) =
      Except.error CastError.invalidEventTime :=
  ⟨(event_time_parsing 1).1 (-1) (PVal.str "x"), by decide, by decide,
   (event_time_parsing 1).2 "abc" (PVal.str "o") (PVal.str "x") (by decide) (by decide)⟩

/-! ## Decimal rendering and the resize payload round trip -/

theorem digitChar_toNat (m : Nat) (hm : m < 10) : (Char.ofNat (48 + m)).toNat = 48 + m := by
  interval_cases m <;> decide

theorem digitChar_isDigit (m : Nat) (hm : m < 10) : (Char.ofNat (48 + m)).isDigit = true := by
  interval_cases m <;> decide

theorem natDigits_small (n : Nat) (acc : List Char) (h : n < 10) :
    natDigits n acc = Char.ofNat (48 + n % 10) :: acc := by
  conv_lhs => rw [natDigits]
  simp [h]

theorem natDigits_large (n : Nat) (acc : List Char) (h : ¬n < 10) :
    natDigits n acc = natDigits (n / 10) (Char.ofNat (48 + n % 10) :: acc) := by
  conv_lhs => rw [natDigits]
  simp [h]

theorem natDigits_acc (n : Nat) : ∀ acc : List Char, natDigits n acc = natDigits n [] ++ acc := by
  induction n using Nat.strong_induction_on with
  | _ n ih =>
      intro acc
      by_cases h : n < 10
      · rw [natDigits_small n acc h, natDigits_small n [] h]; rfl
      · have hlt : n / 10 < n := Nat.div_lt_self (by omega) (by omega)
        rw [natDigits_large n acc h, natDigits_large n [] h, ih (n / 10) hlt,
          ih (n / 10) hlt (Char.ofNat (48 + n % 10) :: [])]
        simp

theorem natDigits_all_digits (n : Nat) : ∀ c ∈ natDigits n [], c.isDigit = true := by
  induction n using Nat.strong_induction_on with
  | _ n ih =>
      intro c hc
      by_cases h : n < 10
      · rw [natDigits_small n [] h] at hc
        rcases List.mem_singleton.mp hc with rfl
        exact digitChar_isDigit (n % 10) (Nat.mod_lt n (by omega))
      · have hlt : n / 10 < n := Nat.div_lt_self (by omega) (by omega)
        rw [natDigits_large n [] h, natDigits_acc (n / 10)] at hc
        rcases List.mem_append.mp hc with hc | hc
        · exact ih (n / 10) hlt c hc
        · rcases List.mem_singleton.mp hc with rfl
          exact digitChar_isDigit (n % 10) (Nat.mod_lt n (by omega))

theorem natDigits_ne_nil (n : Nat) : natDigits n [] ≠ [] := by
  by_cases h : n < 10
  · rw [natDigits_small n [] h]; simp
  · rw [natDigits_large n [] h, natDigits_acc (n / 10)]; simp

theorem foldl_digitStep_natDigits (n : Nat) :
    ∀ a : Nat, List.foldl digitStep a (natDigits n []) =
      a * 10 ^ (natDigits n []).length + n := by
  induction n using Nat.strong_induction_on with
  | _ n ih =>
      intro a
      by_cases h : n < 10
      · rw [natDigits_small n [] h]
        simp [digitStep, digitChar_toNat (n % 10) (Nat.mod_lt n (by omega))]
        omega
      · have hlt : n / 10 < n := Nat.div_lt_self (by omega) (by omega)
        rw [natDigits_large n [] h, natDigits_acc (n / 10), List.foldl_append,
          ih (n / 10) hlt a]
        simp [digitStep, digitChar_toNat (n % 10) (Nat.mod_lt n (by omega)), pow_succ]
        have h2 : 10 * (n / 10) + n % 10 = n := by omega
        calc 10 * (a * 10 ^ (natDigits (n / 10) []).length + n / 10) + n % 10
            = a * (10 ^ (natDigits (n / 10) []).length * 10) + (10 * (n / 10) + n % 10) := by
              ring
          _ = a * (10 ^ (natDigits (n / 10) []).length * 10) + n := by rw [h2]

theorem digitsToNat_natDigits (n : Nat) : digitsToNat (natDigits n []) = n := by
  have := foldl_digitStep_natDigits n 0
  simpa [digitsToNat] using this

theorem takeWhile_dropWhile_append (p : Char → Bool) :
    ∀ (l1 : List Char) (x : Char) (l2 : List Char), (∀ c ∈ l1, p c = true) → p x = false →
      (l1 ++ x :: l2).takeWhile p = l1 ∧ (l1 ++ x :: l2).dropWhile p = x :: l2 := by
  intro l1
  induction l1 with
  | nil =>
      intro x l2 _ hx
      simp [List.takeWhile_cons, List.dropWhile_cons, hx]
  | cons c l1 ih =>
      intro x l2 hall hx
      have hc : p c = true := hall c (List.mem_cons_self c l1)
      have := ih x l2 (fun d hd => hall d (List.mem_cons_of_mem c hd)) hx
      simp [List.takeWhile_cons, List.dropWhile_cons, hc, this.1, this.2]

theorem resizeMatch_roundtrip (cn rn : Nat) :
    resizeMatch (natDigits cn [] ++ 'x' :: natDigits rn []) = Option.some (cn, rn) := by
  obtain ⟨ht, hd⟩ := takeWhile_dropWhile_append Char.isDigit (natDigits cn []) 'x'
    (natDigits rn []) (natDigits_all_digits cn) (by decide)
  obtain ⟨c0, a0, ha⟩ := List.exists_cons_of_ne_nil (natDigits_ne_nil cn)
  rw [resizeMatch]
  simp only [ht, hd]
  rw [ha]
  dsimp only
  have hcond : 'x' = 'x' ∧ natDigits rn [] ≠ [] ∧ (natDigits rn []).all Char.isDigit := by
    exact ⟨rfl, natDigits_ne_nil rn, List.all_eq_true.mpr (natDigits_all_digits rn)⟩
  rw [if_pos hcond]
  rw [← ha, digitsToNat_natDigits, digitsToNat_natDigits]

/-! ## JSON-safe values are fixed points of `asdict` conversion -/

theorem jsonSafeList_eq : ∀ xs : List PVal, jsonSafeList xs = xs.all PVal.jsonSafe := by
  intro xs
  induction xs with
  | nil => rfl
  | cons v vs ih => rw [jsonSafeList, List.all_cons, ih]

theorem jsonSafeKVs_eq : ∀ kvs : List (String × PVal),
    jsonSafeKVs kvs = kvs.all (fun kv => kv.2.jsonSafe) := by
  intro kvs
  induction kvs with
  | nil => rfl
  | cons kv rest ih => rw [jsonSafeKVs, List.all_cons, ih]

theorem pvalAsdictList_eq : ∀ xs : List PVal, pvalAsdictList xs = xs.map pvalAsdict := by
  intro xs
  induction xs with
  | nil => rfl
  | cons v vs ih => rw [pvalAsdictList, List.map_cons, ih]

theorem pvalAsdictKVs_eq : ∀ kvs : List (String × PVal),
    pvalAsdictKVs kvs = kvs.map (fun kv => (kv.1, pvalAsdict kv.2)) := by
  intro kvs
  induction kvs with
  | nil => rfl
  | cons kv rest ih => rw [pvalAsdictKVs, List.map_cons, ih]

theorem pval_sizeOf_pos (v : PVal) : 0 < sizeOf v := by cases v <;> simp

/-- `dataclasses.asdict` leaves JSON-serializable values unchanged (only
dataclass instances are converted). -/
theorem pvalAsdict_of_jsonSafe :
    ∀ (N : Nat) (v : PVal), sizeOf v ≤ N → v.jsonSafe = true → pvalAsdict v = v := by
  intro N
  induction N with
  | zero =>
      intro v hszv _
      exact absurd hszv (by have := pval_sizeOf_pos v; omega)
  | succ N ih =>
      intro v hszv hsafe
      cases v with
      | none => rfl
      | bool b => rfl
      | int n => rfl
      | float q => rfl
      | str s => rfl
      | theme t => exact absurd hsafe (by rw [PVal.jsonSafe]; simp)
      | list xs =>
          rw [PVal.jsonSafe, jsonSafeList_eq] at hsafe
          have hsz : sizeOf xs ≤ N := by
            have : sizeOf (PVal.list xs) = 1 + sizeOf xs := by simp
            omega
          rw [pvalAsdict, pvalAsdictList_eq]
          have hmap : xs.map pvalAsdict = xs.map id := by
            refine List.map_congr_left ?_
            intro x hx
            have hxsz : sizeOf x ≤ N := by
              have := List.sizeOf_lt_of_mem hx
              omega
            exact ih x hxsz (List.all_eq_true.mp hsafe x hx)
          rw [hmap, List.map_id]
      | dict kvs =>
          rw [PVal.jsonSafe, Bool.and_eq_true, jsonSafeKVs_eq] at hsafe
          have hsz : sizeOf kvs ≤ N := by
            have : sizeOf (PVal.dict kvs) = 1 + sizeOf kvs := by simp
            omega
          rw [pvalAsdict, pvalAsdictKVs_eq]
          have hmap : kvs.map (fun kv => (kv.1, pvalAsdict kv.2)) = kvs.map id := by
            refine List.map_congr_left ?_
            intro kv hkv
            obtain ⟨k1, v1⟩ := kv
            have hvsz : sizeOf v1 ≤ N := by
              have h1 := List.sizeOf_lt_of_mem hkv
              have h2 : sizeOf (k1, v1) = 1 + sizeOf k1 + sizeOf v1 := by simp
              omega
            have := ih v1 hvsz (List.all_eq_true.mp hsafe.2 (k1, v1) hkv)
            simp [this]
          rw [hmap, List.map_id]

theorem pvalAsdict_id (v : PVal) (hs : v.jsonSafe = true) : pvalAsdict v = v :=
  pvalAsdict_of_jsonSafe (sizeOf v) v le_rfl hs

/-! ## Header serialization parses back to the same header -/

theorem lookupKey_cons (k : String) (kv : String × PVal) (rest : List (String × PVal)) :
    lookupKey k (kv :: rest) = if kv.1 = k then Option.some kv.2 else lookupKey k rest := rfl

theorem lookupKey_filter_of_forall_ne (k : String) (q : (String × PVal) → Bool) :
    ∀ l : List (String × PVal), (∀ kv ∈ l, kv.1 ≠ k) →
      lookupKey k (l.filter q) = Option.none := by
  intro l
  induction l with
  | nil => intro _; rfl
  | cons kv rest ih =>
      intro hall
      cases hq : q kv
      · rw [List.filter_cons_of_neg (by simp [hq])]
        exact ih fun kv2 h2 => hall kv2 (List.mem_cons_of_mem kv h2)
      · rw [List.filter_cons_of_pos (by simp [hq]), lookupKey_cons,
          if_neg (hall kv (List.mem_cons_self kv rest))]
        exact ih fun kv2 h2 => hall kv2 (List.mem_cons_of_mem kv h2)

/-- Looking a key up in a filtered duplicate-free association list is the
filtered lookup. -/
theorem lookupKey_filter_nodup (q : (String × PVal) → Bool) (k : String) :
    ∀ l : List (String × PVal), (l.map Prod.fst).Nodup →
      lookupKey k (l.filter q) =
        match lookupKey k l with
        | Option.some v => if q (k, v) = true then Option.some v else Option.none
        | Option.none => Option.none := by
  intro l
  induction l with
  | nil => intro _; rfl
  | cons kv rest ih =>
      intro hnd
      obtain ⟨k1, v1⟩ := kv
      rw [List.map_cons, List.nodup_cons] at hnd
      by_cases hk : k1 = k
      · subst hk
        rw [lookupKey_cons, if_pos rfl]
        cases hq : q (k1, v1)
        · rw [List.filter_cons_of_neg (by simp [hq]),
            lookupKey_filter_of_forall_ne k1 q rest ?hne]
          · simp [hq]
          case hne =>
            intro kv2 h2 he
            apply hnd.1
            have hm : kv2.1 ∈ rest.map Prod.fst := List.mem_map_of_mem Prod.fst h2
            rwa [he] at hm
        · rw [List.filter_cons_of_pos (by simp [hq]), lookupKey_cons, if_pos rfl]
          simp [hq]
      · rw [lookupKey_cons, if_neg hk]
        cases hq : q (k1, v1)
        · rw [List.filter_cons_of_neg (by simp [hq])]
          exact ih hnd.2
        · rw [List.filter_cons_of_pos (by simp [hq]), lookupKey_cons, if_neg hk]
          exact ih hnd.2

theorem getD_if_notNone (v : PVal) :
    (if (!v.isNone) = true then Option.some v else Option.none).getD PVal.none = v := by
  cases v <;> rfl

theorem isSome_if_notNone (v : PVal) (h : (!v.isNone) = true) :
    (if (!v.isNone) = true then Option.some v else Option.none).isSome = true := by
  rw [if_pos h]; rfl

theorem pyEqInt_not_none (v : PVal) (m : Int) (hv : pyEqInt v m = true) :
    (!v.isNone) = true := by
  cases v with
  | int n => rfl
  | float q => rfl
  | bool b => rfl
  | none => exact Bool.noConfusion hv
  | str s => exact Bool.noConfusion hv
  | list xs => exact Bool.noConfusion hv
  | dict kvs => exact Bool.noConfusion hv
  | theme t => exact Bool.noConfusion hv

theorem all_filter_of_all (p q : (String × PVal) → Bool) :
    ∀ l : List (String × PVal), l.all q = true → (l.filter p).all q = true := by
  intro l
  induction l with
  | nil => intro _; rfl
  | cons a rest ih =>
      intro hall
      rw [List.all_cons, Bool.and_eq_true] at hall
      cases hp : p a
      · rw [List.filter_cons_of_neg (by simp [hp])]
        exact ih hall.2
      · rw [List.filter_cons_of_pos (by simp [hp]), List.all_cons, Bool.and_eq_true]
        exact ⟨hall.1, ih hall.2⟩

theorem headerPairs_of_jsonSafe (h : Header)
    (h1 : h.version.jsonSafe = true) (h2 : h.width.jsonSafe = true)
    (h3 : h.height.jsonSafe = true) (h4 : h.timestamp.jsonSafe = true)
    (h5 : h.duration.jsonSafe = true) (h6 : h.idle_time_limit.jsonSafe = true)
    (h7 : h.command.jsonSafe = true) (h8 : h.title.jsonSafe = true)
    (h9 : h.env.jsonSafe = true) (h10 : h.theme.jsonSafe = true) :
    headerPairs h = [("version", h.version), ("width", h.width), ("height", h.height),
      ("timestamp", h.timestamp), ("duration", h.duration),
      ("idle_time_limit", h.idle_time_limit), ("command", h.command),
      ("title", h.title), ("env", h.env), ("theme", h.theme)] := by
  rw [headerPairs, pvalAsdict_id _ h1, pvalAsdict_id _ h2, pvalAsdict_id _ h3,
    pvalAsdict_id _ h4, pvalAsdict_id _ h5, pvalAsdict_id _ h6, pvalAsdict_id _ h7,
    pvalAsdict_id _ h8, pvalAsdict_id _ h9, pvalAsdict_id _ h10]

/-- Parsing the serialized header record reconstructs the header: present
fields are read back, omitted `None` fields fall back to their `None`
defaults. -/
theorem headerFromDict_as_data (h : Header) (hv : validHeader h = true) :
    headerFromDict ((headerPairs h).filter (fun kv => !kv.2.isNone)) = Except.ok h := by
  simp only [validHeader, Bool.and_eq_true] at hv
  obtain ⟨⟨⟨⟨⟨⟨⟨⟨⟨⟨⟨⟨hv1, hv2⟩, hv3⟩, hv4⟩, hv5⟩, hv6⟩, hv7⟩, hv8⟩, hv9⟩, hv10⟩,
    hv11⟩, hv12⟩, hv13⟩ := hv
  rw [headerPairs_of_jsonSafe h hv4 hv5 hv6 hv7 hv8 hv9 hv10 hv11 hv12 hv13]
  have hnodup : (([("version", h.version), ("width", h.width), ("height", h.height),
      ("timestamp", h.timestamp), ("duration", h.duration),
      ("idle_time_limit", h.idle_time_limit), ("command", h.command),
      ("title", h.title), ("env", h.env), ("theme", h.theme)]).map Prod.fst).Nodup := by
    simp
  have hlk := fun k => lookupKey_filter_nodup (fun kv => !kv.2.isNone) k
    [("version", h.version), ("width", h.width), ("height", h.height),
      ("timestamp", h.timestamp), ("duration", h.duration),
      ("idle_time_limit", h.idle_time_limit), ("command", h.command),
      ("title", h.title), ("env", h.env), ("theme", h.theme)] hnodup
  have e1 : lookupKey "version" [("version", h.version), ("width", h.width), ("height", h.height),
      ("timestamp", h.timestamp), ("duration", h.duration),
      ("idle_time_limit", h.idle_time_limit), ("command", h.command),
      ("title", h.title), ("env", h.env), ("theme", h.theme)] = Option.some h.version := by
    simp [lookupKey_cons]
  have f1 : lookupKey "version" ([("version", h.version), ("width", h.width), ("height", h.height),
      ("timestamp", h.timestamp), ("duration", h.duration),
      ("idle_time_limit", h.idle_time_limit), ("command", h.command),
      ("title", h.title), ("env", h.env), ("theme", h.theme)].filter (fun kv => !kv.2.isNone)) =
      if (!h.version.isNone) = true then Option.some h.version else Option.none := by
    rw [hlk "version", e1]
  have e2 : lookupKey "width" [("version", h.version), ("width", h.width), ("height", h.height),
      ("timestamp", h.timestamp), ("duration", h.duration),
      ("idle_time_limit", h.idle_time_limit), ("command", h.command),
      ("title", h.title), ("env", h.env), ("theme", h.theme)] = Option.some h.width := by
    simp [lookupKey_cons]
  have f2 : lookupKey "width" ([("version", h.version), ("width", h.width), ("height", h.height),
      ("timestamp", h.timestamp), ("duration", h.duration),
      ("idle_time_limit", h.idle_time_limit), ("command", h.command),
      ("title", h.title), ("env", h.env), ("theme", h.theme)].filter (fun kv => !kv.2.isNone)) =
      if (!h.width.isNone) = true then Option.some h.width else Option.none := by
    rw [hlk "width", e2]
  have e3 : lookupKey "height" [("version", h.version), ("width", h.width), ("height", h.height),
      ("timestamp", h.timestamp), ("duration", h.duration),
      ("idle_time_limit", h.idle_time_limit), ("command", h.command),
      ("title", h.title), ("env", h.env), ("theme", h.theme)] = Option.some h.height := by
    simp [lookupKey_cons]
  have f3 : lookupKey "height" ([("version", h.version), ("width", h.width), ("height", h.height),
      ("timestamp", h.timestamp), ("duration", h.duration),
      ("idle_time_limit", h.idle_time_limit), ("command", h.command),
      ("title", h.title), ("env", h.env), ("theme", h.theme)].filter (fun kv => !kv.2.isNone)) =
      if (!h.height.isNone) = true then Option.some h.height else Option.none := by
    rw [hlk "height", e3]
  have e4 : lookupKey "timestamp" [("version", h.version), ("width", h.width), ("height", h.height),
      ("timestamp", h.timestamp), ("duration", h.duration),
      ("idle_time_limit", h.idle_time_limit), ("command", h.command),
      ("title", h.title), ("env", h.env), ("theme", h.theme)] = Option.some h.timestamp := by
    simp [lookupKey_cons]
  have f4 : lookupKey "timestamp" ([("version", h.version), ("width", h.width), ("height", h.height),
      ("timestamp", h.timestamp), ("duration", h.duration),
      ("idle_time_limit", h.idle_time_limit), ("command", h.command),
      ("title", h.title), ("env", h.env), ("theme", h.theme)].filter (fun kv => !kv.2.isNone)) =
      if (!h.timestamp.isNone) = true then Option.some h.timestamp else Option.none := by
    rw [hlk "timestamp", e4]
  have e5 : lookupKey "duration" [("version", h.version), ("width", h.width), ("height", h.height),
      ("timestamp", h.timestamp), ("duration", h.duration),
      ("idle_time_limit", h.idle_time_limit), ("command", h.command),
      ("title", h.title), ("env", h.env), ("theme", h.theme)] = Option.some h.duration := by
    simp [lookupKey_cons]
  have f5 : lookupKey "duration" ([("version", h.version), ("width", h.width), ("height", h.height),
      ("timestamp", h.timestamp), ("duration", h.duration),
      ("idle_time_limit", h.idle_time_limit), ("command", h.command),
      ("title", h.title), ("env", h.env), ("theme", h.theme)].filter (fun kv => !kv.2.isNone)) =
      if (!h.duration.isNone) = true then Option.some h.duration else Option.none := by
    rw [hlk "duration", e5]
  have e6 : lookupKey "idle_time_limit" [("version", h.version), ("width", h.width), ("height", h.height),
      ("timestamp", h.timestamp), ("duration", h.duration),
      ("idle_time_limit", h.idle_time_limit), ("command", h.command),
      ("title", h.title), ("env", h.env), ("theme", h.theme)] = Option.some h.idle_time_limit := by
    simp [lookupKey_cons]
  have f6 : lookupKey "idle_time_limit" ([("version", h.version), ("width", h.width), ("height", h.height),
      ("timestamp", h.timestamp), ("duration", h.duration),
      ("idle_time_limit", h.idle_time_limit), ("command", h.command),
      ("title", h.title), ("env", h.env), ("theme", h.theme)].filter (fun kv => !kv.2.isNone)) =
      if (!h.idle_time_limit.isNone) = true then Option.some h.idle_time_limit else Option.none := by
    rw [hlk "idle_time_limit", e6]
  have e7 : lookupKey "command" [("version", h.version), ("width", h.width), ("height", h.height),
      ("timestamp", h.timestamp), ("duration", h.duration),
      ("idle_time_limit", h.idle_time_limit), ("command", h.command),
      ("title", h.title), ("env", h.env), ("theme", h.theme)] = Option.some h.command := by
    simp [lookupKey_cons]
  have f7 : lookupKey "command" ([("version", h.version), ("width", h.width), ("height", h.height),
      ("timestamp", h.timestamp), ("duration", h.duration),
      ("idle_time_limit", h.idle_time_limit), ("command", h.command),
      ("title", h.title), ("env", h.env), ("theme", h.theme)].filter (fun kv => !kv.2.isNone)) =
      if (!h.command.isNone) = true then Option.some h.command else Option.none := by
    rw [hlk "command", e7]
  have e8 : lookupKey "title" [("version", h.version), ("width", h.width), ("height", h.height),
      ("timestamp", h.timestamp), ("duration", h.duration),
      ("idle_time_limit", h.idle_time_limit), ("command", h.command),
      ("title", h.title), ("env", h.env), ("theme", h.theme)] = Option.some h.title := by
    simp [lookupKey_cons]
  have f8 : lookupKey "title" ([("version", h.version), ("width", h.width), ("height", h.height),
      ("timestamp", h.timestamp), ("duration", h.duration),
      ("idle_time_limit", h.idle_time_limit), ("command", h.command),
      ("title", h.title), ("env", h.env), ("theme", h.theme)].filter (fun kv => !kv.2.isNone)) =
      if (!h.title.isNone) = true then Option.some h.title else Option.none := by
    rw [hlk "title", e8]
  have e9 : lookupKey "env" [("version", h.version), ("width", h.width), ("height", h.height),
      ("timestamp", h.timestamp), ("duration", h.duration),
      ("idle_time_limit", h.idle_time_limit), ("command", h.command),
      ("title", h.title), ("env", h.env), ("theme", h.theme)] = Option.some h.env := by
    simp [lookupKey_cons]
  have f9 : lookupKey "env" ([("version", h.version), ("width", h.width), ("height", h.height),
      ("timestamp", h.timestamp), ("duration", h.duration),
      ("idle_time_limit", h.idle_time_limit), ("command", h.command),
      ("title", h.title), ("env", h.env), ("theme", h.theme)].filter (fun kv => !kv.2.isNone)) =
      if (!h.env.isNone) = true then Option.some h.env else Option.none := by
    rw [hlk "env", e9]
  have e10 : lookupKey "theme" [("version", h.version), ("width", h.width), ("height", h.height),
      ("timestamp", h.timestamp), ("duration", h.duration),
      ("idle_time_limit", h.idle_time_limit), ("command", h.command),
      ("title", h.title), ("env", h.env), ("theme", h.theme)] = Option.some h.theme := by
    simp [lookupKey_cons]
  have f10 : lookupKey "theme" ([("version", h.version), ("width", h.width), ("height", h.height),
      ("timestamp", h.timestamp), ("duration", h.duration),
      ("idle_time_limit", h.idle_time_limit), ("command", h.command),
      ("title", h.title), ("env", h.env), ("theme", h.theme)].filter (fun kv => !kv.2.isNone)) =
      if (!h.theme.isNone) = true then Option.some h.theme else Option.none := by
    rw [hlk "theme", e10]
  have hall : (([("version", h.version), ("width", h.width), ("height", h.height),
      ("timestamp", h.timestamp), ("duration", h.duration),
      ("idle_time_limit", h.idle_time_limit), ("command", h.command),
      ("title", h.title), ("env", h.env), ("theme", h.theme)]).filter
        (fun kv => !kv.2.isNone)).all (fun kv => headerFieldNames.contains kv.1) = true := by
    refine all_filter_of_all _ _ _ ?_
    simp [headerFieldNames]
  rw [headerFromDict, if_pos ?cond]
  case cond =>
    rw [Bool.and_eq_true, Bool.and_eq_true, Bool.and_eq_true]
    refine ⟨⟨⟨hall, ?_⟩, ?_⟩, ?_⟩
    · rw [f1]; exact isSome_if_notNone h.version (pyEqInt_not_none h.version 2 hv1)
    · rw [f2]; exact isSome_if_notNone h.width hv2
    · rw [f3]; exact isSome_if_notNone h.height hv3
  rw [f1, f2, f3, f4, f5, f6, f7, f8, f9, f10]
  rw [getD_if_notNone, getD_if_notNone, getD_if_notNone, getD_if_notNone, getD_if_notNone,
    getD_if_notNone, getD_if_notNone, getD_if_notNone, getD_if_notNone, getD_if_notNone]

/-! ## Event serialization parses back to the same event -/

/-- A wire-safe event's record is JSON-serializable and parses back to
the event itself, whatever the line number. -/
theorem event_roundtrip (e : Event) (he : wireOk e = true) :
    ∃ rec : PVal, Event.as_data e = Except.ok rec ∧ rec.jsonSafe = true ∧
      ∀ ln : Nat, parse_event ln rec = Except.ok e := by
  cases e with
  | output t d =>
      refine ⟨PVal.list [PVal.float t, PVal.str "o", d], rfl, ?_, fun ln => rfl⟩
      rw [PVal.jsonSafe, jsonSafeList_eq]
      simp [PVal.jsonSafe]
      exact he
  | input t d =>
      refine ⟨PVal.list [PVal.float t, PVal.str "i", d], rfl, ?_, fun ln => rfl⟩
      rw [PVal.jsonSafe, jsonSafeList_eq]
      simp [PVal.jsonSafe]
      exact he
  | marker t l =>
      refine ⟨PVal.list [PVal.float t, PVal.str "m", l], rfl, ?_, fun ln => rfl⟩
      rw [PVal.jsonSafe, jsonSafeList_eq]
      simp [PVal.jsonSafe]
      exact he
  | comment t top txt => exact Bool.noConfusion he
  | resize t cols rows =>
      rw [wireOk, Bool.and_eq_true, decide_eq_true_eq, decide_eq_true_eq] at he
      obtain ⟨hc, hr⟩ := he
      refine ⟨PVal.list [PVal.float t, PVal.str "r",
        PVal.str (pyIntStr cols ++ "x" ++ pyIntStr rows)], rfl, ?_, fun ln => ?_⟩
      · rw [PVal.jsonSafe, jsonSafeList_eq]
        simp [PVal.jsonSafe]
      · have hs1 : (pyIntStr cols).data = natDigits cols.toNat [] := by
          rw [pyIntStr, if_neg (not_lt.mpr hc)]
        have hs2 : (pyIntStr rows).data = natDigits rows.toNat [] := by
          rw [pyIntStr, if_neg (not_lt.mpr hr)]
        rw [parse_event]
        simp only [pyFloat, String.toList, String.data_append]
        simp [hs1, hs2, resizeMatch_roundtrip, Int.toNat_of_nonneg hc, Int.toNat_of_nonneg hr]

/-- List version of `event_roundtrip`, following `to_lines`'s `mapM`
(through its proof-friendly form `mapM'`). -/
theorem events_roundtrip : ∀ evs : List Event, (∀ e ∈ evs, wireOk e = true) →
    ∃ recs : List PVal, List.mapM' Event.as_data evs = Except.ok recs ∧
      (∀ r ∈ recs, PVal.jsonSafe r = true) ∧
      ∀ ln : Nat, parse_events ln recs = Except.ok evs := by
  intro evs
  induction evs with
  | nil => intro _; exact ⟨[], rfl, by simp, fun ln => rfl⟩
  | cons e rest ih =>
      intro hall
      obtain ⟨rec, har, hjs, hpe⟩ := event_roundtrip e (hall e (List.mem_cons_self e rest))
      obtain ⟨recs, hmr, hjss, hpes⟩ := ih (fun x hx => hall x (List.mem_cons_of_mem e hx))
      refine ⟨rec :: recs, ?_, ?_, ?_⟩
      · rw [List.mapM'_cons, har, hmr]
        rfl
      · intro x hx
        rcases List.mem_cons.mp hx with rfl | hx
        · exact hjs
        · exact hjss x hx
      · intro ln
        rw [parse_events, hpe ln, hpes (ln + 1)]
        rfl

theorem mapM'_dumpsOk : ∀ recs : List PVal, (∀ r ∈ recs, PVal.jsonSafe r = true) →
    List.mapM' dumpsOk recs = Except.ok recs := by
  intro recs
  induction recs with
  | nil => intro _; rfl
  | cons r rest ih =>
      intro hall
      have h1 : dumpsOk r = Except.ok r := by
        rw [dumpsOk, if_pos (hall r (List.mem_cons_self r rest))]
      rw [List.mapM'_cons, h1, ih (fun x hx => hall x (List.mem_cons_of_mem r hx))]
      rfl

/-- The serialized header record is JSON-serializable. -/
theorem as_data_jsonSafe (h : Header) (hv : validHeader h = true) :
    (Header.as_data h).jsonSafe = true := by
  simp only [validHeader, Bool.and_eq_true] at hv
  obtain ⟨⟨⟨⟨⟨⟨⟨⟨⟨⟨⟨⟨hv1, hv2⟩, hv3⟩, hv4⟩, hv5⟩, hv6⟩, hv7⟩, hv8⟩, hv9⟩, hv10⟩,
    hv11⟩, hv12⟩, hv13⟩ := hv
  rw [Header.as_data, headerPairs_of_jsonSafe h hv4 hv5 hv6 hv7 hv8 hv9 hv10 hv11 hv12 hv13,
    PVal.jsonSafe, Bool.and_eq_true, jsonSafeKVs_eq]
  constructor
  · rw [decide_eq_true_eq]
    refine List.Nodup.sublist (List.Sublist.map Prod.fst (List.filter_sublist _)) ?_
    simp
  · refine all_filter_of_all _ _ _ ?_
    simp [List.all_cons, hv4, hv5, hv6, hv7, hv8, hv9, hv10, hv11, hv12, hv13]

/-- Claim C1 (amended): serializing a valid AsciiCast (integer version 2,
present width/height, JSON-compatible header fields — in particular no
`Theme` dataclass instance in `theme` — and wire-safe events) and parsing
the lines back yields an equal AsciiCast, with absent optional header
fields omitted rather than emitted as null. -/
theorem cast_roundtrip (c : AsciiCast) (hv : ValidCast c = true) :
    roundTrip c = Except.ok c := by
  rw [ValidCast, Bool.and_eq_true] at hv
  obtain ⟨hvh, hevs⟩ := hv
  have hall : ∀ e ∈ c.events, wireOk e = true := fun e he => List.all_eq_true.mp hevs e he
  obtain ⟨recs, hmr, hjss, hpes⟩ := events_roundtrip c.events hall
  have hdump : List.mapM' dumpsOk (c.header.as_data :: recs) =
      Except.ok (c.header.as_data :: recs) := by
    refine mapM'_dumpsOk _ ?_
    intro r hr
    rcases List.mem_cons.mp hr with rfl | hr
    · exact as_data_jsonSafe c.header hvh
    · exact hjss r hr
  rw [roundTrip, AsciiCast.to_lines, ← List.mapM'_eq_mapM, hmr]
  show ((c.header.as_data :: recs).mapM dumpsOk).bind parse_cast = Except.ok c
  rw [← List.mapM'_eq_mapM, hdump]
  show parse_cast (c.header.as_data :: recs) = Except.ok c
  have hver : pyEqInt c.header.version 2 = true := by
    simp only [validHeader, Bool.and_eq_true] at hvh
    exact hvh.1.1.1.1.1.1.1.1.1.1.1.1
  conv_lhs => rw [Header.as_data]
  rw [parse_cast, headerFromDict_as_data c.header hvh]
  dsimp only
  rw [hver, if_neg (by simp), hpes 1]

/-- A concrete valid cast (optional title and env present, timestamp and
theme absent, output/marker/resize events) that round trips exactly. -/
theorem cast_roundtrip_witness :
    ValidCast (AsciiCast.mk
      { version := PVal.int 2, width := PVal.int 80, height := PVal.int 24,
        title := PVal.str "demo",
        env := PVal.dict [("SHELL", PVal.str "/bin/bash")] }
      [Event.output 0 (PVal.str "hi"), Event.marker 1 (PVal.str "go"),
        Event.resize 2 100 30]) = true ∧
    roundTrip (AsciiCast.mk
      { version := PVal.int 2, width := PVal.int 80, height := PVal.int 24,
        title := PVal.str "demo",
        env := PVal.dict [("SHELL", PVal.str "/bin/bash")] }
      [Event.output 0 (PVal.str "hi"), Event.marker 1 (PVal.str "go"),
        Event.resize 2 100 30]) =
      Except.ok (AsciiCast.mk
        { version := PVal.int 2, width := PVal.int 80, height := PVal.int 24,
          title := PVal.str "demo",
          env := PVal.dict [("SHELL", PVal.str "/bin/bash")] }
        [Event.output 0 (PVal.str "hi"), Event.marker 1 (PVal.str "go"),
          Event.resize 2 100 30]) :=
  ⟨rfl, cast_roundtrip (AsciiCast.mk
      { version := PVal.int 2, width := PVal.int 80, height := PVal.int 24,
        title := PVal.str "demo",
        env := PVal.dict [("SHELL", PVal.str "/bin/bash")] }
      [Event.output 0 (PVal.str "hi"), Event.marker 1 (PVal.str "go"),
        Event.resize 2 100 30]) rfl⟩

/-- Claim C1 is false as stated when the optional theme field is present:
`dataclasses.asdict` serializes the `Theme` instance as a plain dict and
`Header(**...)` stores that dict back without rebuilding a `Theme`, so
the parse succeeds but yields a header whose theme is a mapping, not a
`Theme` value — the round trip is not the identity. -/
theorem theme_breaks_roundtrip :
    roundTrip (AsciiCast.mk
      { version := PVal.int 2, width := PVal.int 80, height := PVal.int 24,
        theme := PVal.theme ⟨"white", "black", []⟩ } []) =
      Except.ok (AsciiCast.mk
        { version := PVal.int 2, width := PVal.int 80, height := PVal.int 24,
          theme := PVal.dict [("fg", PVal.str "white"), ("bg", PVal.str "black"),
            ("palette", PVal.list [])] } []) ∧
    roundTrip (AsciiCast.mk
      { version := PVal.int 2, width := PVal.int 80, height := PVal.int 24,
        theme := PVal.theme ⟨"white", "black", []⟩ } []) ≠
      Except.ok (AsciiCast.mk
        { version := PVal.int 2, width := PVal.int 80, height := PVal.int 24,
          theme := PVal.theme ⟨"white", "black", []⟩ } []) := by
  have h1 : roundTrip (AsciiCast.mk
      { version := PVal.int 2, width := PVal.int 80, height := PVal.int 24,
        theme := PVal.theme ⟨"white", "black", []⟩ } []) =
      Except.ok (AsciiCast.mk
        { version := PVal.int 2, width := PVal.int 80, height := PVal.int 24,
          theme := PVal.dict [("fg", PVal.str "white"), ("bg", PVal.str "black"),
            ("palette", PVal.list [])] } []) := rfl
  refine ⟨h1, fun h => ?_⟩
  rw [h1] at h
  injection h with h2
  have h3 := congrArg (fun a => a.header.theme) h2
  exact PVal.noConfusion h3

end Asciinema
